import Mathlib

/-!
Verification development for the IAL-expertise repository.

Part 1 embeds the status-aggregation logic of `davai_tbx/expertise.py`
(class `ExpertBoard`: methods `_status`, `_notify_no_ref_resource`,
`compare`, `process`).

Part 2 embeds the field-comparison logic of
`src/ial_expertise/experts/fields.py` (functions `compare_2_files`,
`compare_2_fields`, `ignore_field`).

External collaborators (epygram resources, `recursive_diff` on metadata
descriptors, `normalized_comparison`, each expert's `parse`/`compare`)
are modelled as oracles passed in as data or functions; exceptions from
those collaborators and from the embedded code itself are modelled with
`Except String`.
-/

set_option linter.unusedVariables false

/-- A status code record `{symbol, short, text}` (spec section 3). -/
structure Status where
  symbol : String
  short : String
  text : String
deriving DecidableEq, Repr

/-- Value bound to the `'Validated'` key of a result document when the key is
present: Python `True`, Python `False`, or any other value (e.g. `None`). -/
inductive VBool where
  | vTrue
  | vFalse
  | vOther
deriving DecidableEq, Repr

/-- A comparator's comparison result document, restricted to the keys read by
`ExpertBoard._status`: the top-level `'symbol'`/`'short'`/`'text'` keys (carried
together, as a status record, by documents that report a status themselves),
`'Validated'`, `'Validated means'`, `'Comparison'` and `'comparisonStatus'`.
An `Option` field is `none` when the key is absent. -/
structure ResultDoc where
  selfStatus : Option Status := none
  validated : Option VBool := none
  validatedMeans : Option String := none
  comparison : Option String := none
  comparisonStatus : Option Status := none
deriving DecidableEq, Repr

/-- An expert of the panel, reduced to the attributes `_status` reads:
its `kind` tag and its `side_expert` flag. -/
structure Expert where
  kind : String
  side_expert : Bool
deriving DecidableEq, Repr

/-- The per-expert entries of a comparison summary, an insertion-ordered
association list from `kind` to result document. -/
abbrev Entries := List (String × ResultDoc)

/-- Lookup `comp_summary[k]` when present (`k in comp_summary` iff `isSome`). -/
def summFind (es : Entries) (k : String) : Option ResultDoc :=
  (es.find? (fun p => p.1 == k)).map (fun p => p.2)

/-- The inner loop `for e in self.experts: comp_summary.pop(e.kind, None)`. -/
def popAll (panel : List Expert) (es : Entries) : Entries :=
  es.filter (fun p => !(panel.any (fun e => e.kind == p.1)))

/-- Removal of one expert's result document from the summary. -/
def eraseKey (k : String) (es : Entries) : Entries :=
  es.filter (fun p => p.1 != k)

/-- Default status installed before the aggregation loop. -/
def noExpertStatus : Status :=
  ⟨"-", "- No expert -", "No expert available"⟩

/-- Status written by `_notify_no_ref_resource`. -/
def noRefStatus : Status :=
  ⟨"0", "- No ref -", "No reference to be compared to"⟩

/-- Status for a technical comparison failure. -/
def compIssueStatus : Status :=
  ⟨"!", "! Comp Issue !", "To be checked: at least one technical problem occurred in comparison"⟩

/-- Status for an expert that has not stated about validation. -/
def unknownStatus : Status :=
  ⟨"?", "? Unknown ?", "To be checked: expert has not stated about Validation"⟩

/-- Index `status_order.index(sym)` for `status_order = ['-','0','?','OK','KO','!','+']`. -/
def statusIndex (sym : String) : Nat :=
  (["-", "0", "?", "OK", "KO", "!", "+"]).findIdx (fun s => s == sym)

/-- The `OK` status built from the `'Validated means'` string. -/
def okStatusOf (m : String) : Status :=
  ⟨"OK", "OK", "Success: \"" ++ m ++ "\""⟩

/-- The `KO` status built from the `'Validated means'` string. -/
def koStatusOf (m : String) : Status :=
  ⟨"KO", "KO", "Fail: \"" ++ m ++ "\" is False"⟩

/-- A comparison summary as it stands when `_status` is called: the
`referenceTask` key (consistency only) and the per-expert entries. -/
structure CompSummary where
  refTask : Option String := none
  entries : Entries := []
deriving DecidableEq, Repr

/-- The loop state of `_status`: the summary entries, the current
`comp_summary['comparisonStatus']`, and the local variable `status`
(`none` while still unbound). -/
structure AggState where
  entries : Entries
  compStatus : Status
  statusVar : Option Status
deriving DecidableEq, Repr

/-- A comparison summary after `_status`: entries, `comparisonStatus`,
`leadExpert` (absent when `none`), and `referenceTask`. -/
structure FinalSummary where
  refTask : Option String
  entries : Entries
  comparisonStatus : Status
  leadExpert : Option String
deriving DecidableEq, Repr

/-- The `elif` chain of `_status` for a non-side expert (lines 135-156):
computes the new value of the local variable `status`, keeping the old
binding when the document binds `'Validated'` to a value that is neither
`True` nor `False`, and raising `KeyError` when `'Validated means'` is
read but absent. -/
def computeVar (es : Entries) (e : Expert) (old : Option Status) : Except String (Option Status) :=
  match summFind es e.kind with
  | some doc =>
      match doc.validated with
      | some VBool.vTrue =>
          match doc.validatedMeans with
          | some m => Except.ok (some (okStatusOf m))
          | none => Except.error "KeyError: Validated means"
      | some VBool.vFalse =>
          match doc.validatedMeans with
          | some m => Except.ok (some (koStatusOf m))
          | none => Except.error "KeyError: Validated means"
      | some VBool.vOther => Except.ok old
      | none =>
          if doc.comparison == some "Failed" then Except.ok (some compIssueStatus)
          else
            match doc.comparisonStatus with
            | some cs =>
                if cs.symbol == "0" then Except.ok (some cs)
                else Except.ok (some unknownStatus)
            | none => Except.ok (some unknownStatus)
  | none => Except.ok (some unknownStatus)

/-- The status-update block of `_status` (lines 157-163): raises
`UnboundLocalError` when the local variable `status` has never been bound,
otherwise keeps the highest-ranked status, gathering texts when several
experts agree on `OK` or `KO`. -/
def applyUpdate (st : AggState) : Except String AggState :=
  match st.statusVar with
  | none => Except.error "UnboundLocalError: status"
  | some sv =>
      if statusIndex sv.symbol ≥ statusIndex st.compStatus.symbol then
        if sv.symbol == st.compStatus.symbol && (sv.symbol == "OK" || sv.symbol == "KO") then
          Except.ok { st with compStatus := { st.compStatus with text := st.compStatus.text ++ " | " ++ sv.text } }
        else
          Except.ok { st with compStatus := sv }
      else
        Except.ok st

/-- One iteration of the `_status` loop for expert `e`, branches after the
`'+'` short-circuit test: `continue` for side experts, otherwise compute the
new `status` binding and run the update block. -/
def statusRest (e : Expert) (st : AggState) : Except String AggState :=
  if e.side_expert then Except.ok st
  else
    match computeVar st.entries e st.statusVar with
    | Except.error msg => Except.error msg
    | Except.ok nv => applyUpdate { st with statusVar := nv }

/-- One full iteration of the `_status` loop for expert `e` (lines 127-163).
The `'+'` short-circuit test (`comp_summary[e.kind].get('symbol') == '+'`)
is evaluated first, before the `side_expert` test; on success it empties all
experts' entries and runs the update block with the `'+'` document. -/
def statusStep (panel : List Expert) (e : Expert) (st : AggState) : Except String AggState :=
  match summFind st.entries e.kind with
  | some doc =>
      match doc.selfStatus with
      | some ss =>
          if ss.symbol == "+" then
            applyUpdate { entries := popAll panel st.entries, compStatus := st.compStatus, statusVar := some ss }
          else statusRest e st
      | none => statusRest e st
  | none => statusRest e st

/-- The `for e in self.experts` loop of `_status`, over the suffix `l`
of the panel. -/
def runAgg (panel : List Expert) : List Expert → AggState → Except String AggState
  | [], st => Except.ok st
  | e :: rest, st =>
      match statusStep panel e st with
      | Except.error msg => Except.error msg
      | Except.ok st2 => runAgg panel rest st2

/-- Lead-expert selection (lines 164-168): an explicitly configured lead is
never overridden; otherwise, when exactly one non-side expert exists, it
becomes the lead. -/
def inferLead (panel : List Expert) (lead : Option String) : Option String :=
  match lead with
  | some l => some l
  | none =>
      match (panel.filter (fun e => !e.side_expert)).map Expert.kind with
      | [k] => some k
      | _ => none

/-- Method `ExpertBoard._status` for one comparison category: when the summary is
empty, `_notify_no_ref_resource` writes the `'0'` status; otherwise, run the
aggregation loop from the default `'-'` status with the local variable
`status` unbound, then record the lead expert. -/
def board_status (panel : List Expert) (lead : Option String) (s : CompSummary) : Except String FinalSummary :=
  if s.entries.isEmpty && s.refTask.isNone then
    Except.ok { refTask := s.refTask, entries := s.entries, comparisonStatus := noRefStatus, leadExpert := none }
  else
    match runAgg panel panel { entries := s.entries, compStatus := noExpertStatus, statusVar := none } with
    | Except.error msg => Except.error msg
    | Except.ok fin =>
        Except.ok { refTask := s.refTask, entries := fin.entries, comparisonStatus := fin.compStatus,
                    leadExpert := inferLead panel lead }

/-- A reference resource, reduced to the `ref_is['task']` tag read by
`ExpertBoard.compare`; the resource handler itself is opaque. -/
structure Ref where
  task : String
deriving DecidableEq, Repr

/-- Python truthiness of a reference-list argument: `None` and the empty
list are falsy. -/
def refList : Option (List Ref) → List Ref
  | none => []
  | some l => l

/-- The summary produced by `_notify_no_ref_resource` on an empty summary. -/
def notifySummary : FinalSummary :=
  { refTask := none, entries := [], comparisonStatus := noRefStatus, leadExpert := none }

/-- Observable outcome of `ExpertBoard.process`: whether `compare` was
invoked, and the two category summaries. -/
structure ProcessOut where
  compareInvoked : Bool
  consistencyOut : FinalSummary
  continuityOut : FinalSummary
deriving DecidableEq, Repr

/-- Method `ExpertBoard.compare`: check that all consistency references come from
the same task, collect each expert's comparison document per category
(`ecompare` is the external `e.compare`), then aggregate each category.
The lead possibly inferred while aggregating consistency is reused for
continuity (in the source `self.lead_expert` is mutated in place). -/
def board_compare (panel : List Expert) (lead : Option String)
    (ecompare : Expert → List Ref → ResultDoc)
    (cs ct : List Ref) : Except String (FinalSummary × FinalSummary) :=
  match (if cs.isEmpty then Except.ok (none : Option String)
         else if (cs.map Ref.task).eraseDups.length > 1 then
           Except.error "ExpertError: Consistency reference resources must all come from the same task."
         else Except.ok (cs.map Ref.task).head?) with
  | Except.error msg => Except.error msg
  | Except.ok rt =>
      let csSum : CompSummary :=
        { refTask := rt, entries := if cs.isEmpty then [] else panel.map (fun e => (e.kind, ecompare e cs)) }
      let ctSum : CompSummary :=
        { refTask := none, entries := if ct.isEmpty then [] else panel.map (fun e => (e.kind, ecompare e ct)) }
      match board_status panel lead csSum with
      | Except.error msg => Except.error msg
      | Except.ok csFin =>
          let lead2 := if csSum.entries.isEmpty && csSum.refTask.isNone then lead else inferLead panel lead
          match board_status panel lead2 ctSum with
          | Except.error msg => Except.error msg
          | Except.ok ctFin => Except.ok (csFin, ctFin)

/-- Method `ExpertBoard.process` (lines 53-63): parse (external, does not touch the
category summaries), then compare when at least one reference argument is
truthy, else notify both categories that no reference is available.
(The `Updated` timestamp and the dumps are I/O and are not modelled.) -/
def board_process (panel : List Expert) (lead : Option String)
    (ecompare : Expert → List Ref → ResultDoc)
    (consistency continuity : Option (List Ref)) : Except String ProcessOut :=
  let cs := refList consistency
  let ct := refList continuity
  if !cs.isEmpty || !ct.isEmpty then
    match board_compare panel lead ecompare cs ct with
    | Except.error msg => Except.error msg
    | Except.ok (a, b) => Except.ok { compareInvoked := true, consistencyOut := a, continuityOut := b }
  else
    Except.ok { compareInvoked := false, consistencyOut := notifySummary, continuityOut := notifySummary }

/-- A field identity as returned by `listfields()`: either a plain string
or a non-string identity (e.g. a GRIB key set), here tagged by a number. -/
inductive Fid where
  | fstr : String → Fid
  | fint : Nat → Fid
deriving DecidableEq, Repr

/-- Key `str(f)`, the key of the per-field status in the report. -/
def fidStr : Fid → String
  | Fid.fstr s => s
  | Fid.fint n => toString n

/-- Function `ignore_field` (fields.py lines 587-593): a field is ignored iff its
identity is a string starting with `'SFX._FBUF_'` (`str.startswith` written
as a character-list prefix test). -/
def ignore_field : Fid → Bool
  | Fid.fstr s => "SFX._FBUF_".toList.isPrefixOf s.toList
  | Fid.fint _ => false

/-- The numpy dtype of a field's data array. -/
inductive DType where
  | dfloat
  | dint
deriving DecidableEq, Repr

/-- Embeds `isinstance(tfld.data.dtype, (int, float))` (fields.py line 562):
`tfld.data.dtype` is a `numpy.dtype` object, which is never an instance of
the Python classes `int` or `float`, so the test is `False` for every dtype. -/
def dtype_isinstance_int_float (_ : DType) : Bool := false

/-- A field's data array: dtype, shape, and values (flattened, as rationals). -/
structure NpArray where
  dtype : DType
  shape : List Nat
  data : List ℚ
deriving DecidableEq, Repr

/-- A field read from a resource, reduced to what `compare_2_fields` reads:
the `MiscField` flag, the data array (already in grid-point space, the
spectral transform being an external epygram operation), and opaque tokens
for the validity and geometry descriptors. -/
structure PyField where
  isMisc : Bool
  arr : NpArray
  validity : Nat
  geometry : Nat
deriving DecidableEq, Repr

/-- Modelled external `recursive_diff` on metadata descriptors: yields a
truthy diff iff the descriptors differ, `None` (i.e. `none`) otherwise. -/
def recursive_diff (a b : Nat) : Option Unit :=
  if a = b then none else some ()

/-- The `'Normalized data diff'` value `{bias, std, errmax}` returned by the
external `normalized_comparison`. -/
structure NormDiff where
  bias : ℚ
  std : ℚ
  errmax : ℚ
deriving DecidableEq, Repr

/-- The `'Normalized data diff'` key: either the diff record or the message
`'Comparison not possible: dimensions differ'`. -/
inductive NDD where
  | diff : NormDiff → NDD
  | dimsDiffer : NDD
deriving DecidableEq, Repr

/-- The per-field status dict; an `Option` field is `none` when the key is
absent, and for the two metadata keys also when the key is present with value
`None` (every read of those keys in the source goes through
`.get(..., None) is None` or truthiness, which identify the two cases). -/
structure FieldStatus where
  validityDiff : Option Unit := none
  geometryDiff : Option Unit := none
  normalizedDataDiff : Option NDD := none
  maskIsCommon : Option Bool := none
  dataBitRepro : Option Bool := none
  validated : Option Bool := none
  compError : Option String := none
deriving DecidableEq, Repr

/-- Test `numpy.all(t == r)` for arrays of equal shape. -/
def np_all_eq (t r : List ℚ) : Bool :=
  (t.zip r).all (fun p => p.1 == p.2)

/-- Test `numpy.all(t - r <= EPSILON)` for arrays of equal shape (note: one-sided,
as in the source). -/
def np_all_sub_le (t r : List ℚ) (eps : ℚ) : Bool :=
  (t.zip r).all (fun p => decide (p.1 - p.2 ≤ eps))

/-- Function `compare_2_fields` (fields.py lines 523-584). `ncmp` is the external
`tfld.normalized_comparison(rfld)`; `eps` is the constant `EPSILON` and `thr`
the `normalized_validation_threshold`; `vibro` is `validate_if_bit_repro_only`;
`max_normalized_diff` is the running-maximum accumulator, returned possibly
increased. -/
def compare_2_fields (ncmp : PyField → PyField → NormDiff × Bool)
    (eps thr : ℚ) (ignore_meta vibro : Bool)
    (tfld rfld : PyField) (max_normalized_diff : ℚ) : FieldStatus × ℚ :=
  let vd : Option Unit :=
    if !tfld.isMisc && !ignore_meta then recursive_diff tfld.validity rfld.validity else none
  let gd : Option Unit :=
    if !tfld.isMisc && !ignore_meta then recursive_diff tfld.geometry rfld.geometry else none
  let validated1 : Bool := !(vd.isSome || gd.isSome)
  if tfld.arr.shape ≠ rfld.arr.shape then
    ({ validityDiff := vd, geometryDiff := gd, normalizedDataDiff := some NDD.dimsDiffer,
       dataBitRepro := some false, validated := some false }, max_normalized_diff)
  else
    let bitrepro : Bool :=
      if dtype_isinstance_int_float tfld.arr.dtype then np_all_sub_le tfld.arr.data rfld.arr.data eps
      else np_all_eq tfld.arr.data rfld.arr.data
    if bitrepro then
      ({ validityDiff := vd, geometryDiff := gd, dataBitRepro := some true,
         validated := some validated1 }, max_normalized_diff)
    else
      let dc := ncmp tfld rfld
      let dd := dc.1
      let cm := dc.2
      let validated2 : Bool := validated1 && cm
      let loc_max : ℚ := max |dd.bias| (max |dd.std| |dd.errmax|)
      let m2 : ℚ := if loc_max > max_normalized_diff then loc_max else max_normalized_diff
      let validated3 : Bool :=
        if vibro then false
        else if decide (thr ≤ |dd.bias|) || decide (thr ≤ |dd.std|) || decide (thr ≤ |dd.errmax|) then false
        else validated2
      ({ validityDiff := vd, geometryDiff := gd, normalizedDataDiff := some (NDD.diff dd),
         maskIsCommon := some cm, dataBitRepro := some false, validated := some validated3 }, m2)

/-- Order used by `sorted()` on the intersection when field identities are
strings. -/
def fidLe : Fid → Fid → Bool
  | Fid.fstr a, Fid.fstr b => decide (a ≤ b)
  | Fid.fstr _, Fid.fint _ => true
  | Fid.fint _, Fid.fstr _ => false
  | Fid.fint a, Fid.fint b => decide (a ≤ b)

/-- Insertion of a field identity into a sorted list (stable: an element is
placed after the elements it compares equal to). -/
def insertFid (a : Fid) : List Fid → List Fid
  | [] => [a]
  | b :: l => if fidLe b a then b :: insertFid a l else a :: b :: l

/-- Stable insertion sort on field identities, modelling Python `sorted()`. -/
def sortFids : List Fid → List Fid
  | [] => []
  | a :: l => insertFid a (sortFids l)

/-- Step `if len(intersection) > 0 and isinstance(intersection[0], str):
intersection = sorted(intersection)` (fields.py lines 477-478). -/
def sortIfStr (l : List Fid) : List Fid :=
  match l with
  | [] => []
  | Fid.fstr _ :: _ => sortFids l
  | Fid.fint _ :: _ => l

/-- The common-field loop of `compare_2_files` (lines 481-496): skip ignored
fields, catch per-field exceptions (`fo f` is the external reading of the two
fields, `.error` modelling a raise), thread the running maximum, and include a
field's status in the report unless its data is bit-repro and
`hide_bit_repro_fields` is set. The source does not forward
`validate_if_bit_repro_only` to `compare_2_fields`, so its default `True`
applies. Accumulator: (report entries, uncompared fields, running maximum). -/
def processCommon (ncmp : PyField → PyField → NormDiff × Bool)
    (fo : Fid → Except String (PyField × PyField))
    (eps thr : ℚ) (ignore_meta hide_bit_repro fatal : Bool) :
    List Fid → (List (String × FieldStatus) × List Fid × ℚ) →
    Except String (List (String × FieldStatus) × List Fid × ℚ)
  | [], acc => Except.ok acc
  | f :: rest, (fs, unc, m) =>
      if ignore_field f then
        processCommon ncmp fo eps thr ignore_meta hide_bit_repro fatal rest (fs, unc, m)
      else
        match fo f with
        | Except.error msg =>
            if fatal then Except.error msg
            else
              processCommon ncmp fo eps thr ignore_meta hide_bit_repro fatal rest
                (fs ++ [(fidStr f, { compError := some msg })], unc ++ [f], m)
        | Except.ok (tf, rf) =>
            let r := compare_2_fields ncmp eps thr ignore_meta true tf rf m
            let fs2 :=
              if !(r.1.dataBitRepro.getD false) || !hide_bit_repro then fs ++ [(fidStr f, r.1)] else fs
            processCommon ncmp fo eps thr ignore_meta hide_bit_repro fatal rest (fs2, unc, r.2)

/-- The file-level comparison document returned by `compare_2_files`. The
`'Max normalized diff'` percentage string is modelled by its numeric value. -/
structure FileComp where
  validated : Bool
  validatedMeans : String
  bitReproducible : Bool
  commonFieldsDifferences : List (String × FieldStatus)
  maxNormalizedDiff : ℚ
  mainMetrics : String
  newFields : Option (List Fid)
  lostFields : Option (List Fid)
  unableToCompare : Option (List Fid)
deriving DecidableEq, Repr

/-- Function `compare_2_files` (fields.py lines 440-520): partition fields into new,
lost and common; compare common fields; aggregate the `'Validated'` and
`'Bit-reproducible'` booleans over the reported per-field statuses; force
`'Validated'` to `False` on orphans unless `ignore_orphan_fields`. -/
def compare_2_files (ncmp : PyField → PyField → NormDiff × Bool)
    (fo : Fid → Except String (PyField × PyField))
    (eps thr : ℚ)
    (ignore_meta ignore_orphan_fields hide_bit_repro vibro fatal : Bool)
    (test_list ref_list : List Fid) : Except String FileComp :=
  let new_fields := test_list.filter (fun f => !(ref_list.contains f))
  let lost_fields := ref_list.filter (fun f => !(test_list.contains f))
  let inter := sortIfStr (test_list.filter (fun f => ref_list.contains f))
  match processCommon ncmp fo eps thr ignore_meta hide_bit_repro fatal inter ([], [], 0) with
  | Except.error msg => Except.error msg
  | Except.ok (fs, unc, m) =>
      let v0 := fs.all (fun p => p.2.validated.getD false)
      let vm0 :=
        if vibro then "All fields have identical shape/mask than reference, and data is bit-repro"
        else "All fields have identical shape/mask than reference, and normalized errors lower than " ++ toString thr
      let v1 := if !ignore_orphan_fields && (new_fields ++ lost_fields).length > 0 then false else v0
      let vm1 := if !ignore_orphan_fields then vm0 ++ ", and no field is orphan on one or the other side." else vm0
      let br := fs.all (fun p =>
        p.2.dataBitRepro.getD false && p.2.validityDiff.isNone && p.2.geometryDiff.isNone)
      Except.ok { validated := v1, validatedMeans := vm1, bitReproducible := br,
                  commonFieldsDifferences := fs, maxNormalizedDiff := m,
                  mainMetrics := "Max normalized diff",
                  newFields := if new_fields.length > 0 then some new_fields else none,
                  lostFields := if lost_fields.length > 0 then some lost_fields else none,
                  unableToCompare := if unc.length > 0 then some unc else none }

/-- Modelled from the spec: the bit-reproducibility predicate the spec states
for floating data ("equality up to a fixed epsilon tolerance", section 4.2),
i.e. elementwise |test - ref| within `eps`; `EPSILON` itself is defined in
`experts/thresholds.py`, which is not part of the sources here, so the
tolerance is a parameter. Used to compare the specified behaviour with the
source's `Data bit-repro` computation. -/
def spec_float_bit_repro (eps : ℚ) (t r : List ℚ) : Bool :=
  (t.zip r).all (fun p => decide (|p.1 - p.2| ≤ eps))

/-- A trivial concrete `normalized_comparison` oracle for concrete runs. -/
def ncmp0 : PyField → PyField → NormDiff × Bool := fun _ _ => (⟨0, 0, 0⟩, true)

/-- Does a result document carry the top-level status symbol `'+'`
(the condition `comp_summary[e.kind].get('symbol') == '+'`)? -/
def docPlusDoc (d : ResultDoc) : Bool :=
  match d.selfStatus with
  | some st => st.symbol == "+"
  | none => false

/-- Does the summary entry for kind `k` carry status symbol `'+'`? -/
def docIsPlus (es : Entries) (k : String) : Bool :=
  match summFind es k with
  | some d => docPlusDoc d
  | none => false

/-- No entry of the summary carries status symbol `'+'`. -/
def noPlusDocs (es : Entries) : Bool :=
  es.all (fun p => !docPlusDoc p.2)

/-- Observable outcome of `_status`: the final `comparisonStatus` symbol on
normal termination, the exception message on a raise. -/
def statusSymbolOf (r : Except String FinalSummary) : String :=
  match r with
  | Except.ok f => f.comparisonStatus.symbol
  | Except.error msg => msg

/-- The accumulator carried by the common-field loop, with a default for the
raising case. -/
def accOf (r : Except String (List (String × FieldStatus) × List Fid × ℚ)) (d : ℚ) : ℚ :=
  match r with
  | Except.ok x => x.2.2
  | Except.error _ => d

/-- A concrete `'+'` status record, as an expert reporting a crashed
reference would produce. -/
def plusStat : Status := ⟨"+", "Crashed", "Crashed: the reference itself was crashed"⟩

/-- A result document carrying the `'+'` status at top level. -/
def plusDoc : ResultDoc := { selfStatus := some plusStat }

/-- A result document with `'Validated'` bound to `None`. -/
def vOtherDoc : ResultDoc := { validated := some VBool.vOther }

/-- A result document with `'Validated': True`. -/
def okDocM : ResultDoc := { validated := some VBool.vTrue, validatedMeans := some "m" }

/-- A result document with `'Validated': False`. -/
def koDocM : ResultDoc := { validated := some VBool.vFalse, validatedMeans := some "m" }

/-- A test field whose data is bit-identical to `rf5`'s but whose validity
descriptor differs. -/
def tf5 : PyField := { isMisc := false, arr := { dtype := DType.dint, shape := [1], data := [0] }, validity := 0, geometry := 0 }

/-- Reference counterpart of `tf5`: same data, different validity descriptor. -/
def rf5 : PyField := { isMisc := false, arr := { dtype := DType.dint, shape := [1], data := [0] }, validity := 1, geometry := 0 }

/-- Field-reading oracle returning the `tf5`/`rf5` pair for every identity. -/
def fo5 : Fid → Except String (PyField × PyField) := fun _ => Except.ok (tf5, rf5)

/-- Field-reading oracle that is never consulted in the `C6` run (the only
field is ignored or orphan). -/
def fo6 : Fid → Except String (PyField × PyField) := fun _ => Except.error "unused"

lemma compare_2_fields_acc_mono (ncmp : PyField → PyField → NormDiff × Bool)
    (eps thr : ℚ) (im vibro : Bool) (tf rf : PyField) (m : ℚ) :
    m ≤ (compare_2_fields ncmp eps thr im vibro tf rf m).2 := by
  unfold compare_2_fields
  dsimp only
  split
  · exact le_refl m
  · split
    all_goals
      split
      · exact le_refl m
      · dsimp only
        split
        · next h => exact le_of_lt h
        · exact le_refl m

lemma processCommon_acc_mono (ncmp : PyField → PyField → NormDiff × Bool)
    (fo : Fid → Except String (PyField × PyField))
    (eps thr : ℚ) (im hide fatal : Bool) :
    ∀ (l : List Fid) (fs : List (String × FieldStatus)) (unc : List Fid) (m : ℚ),
      m ≤ accOf (processCommon ncmp fo eps thr im hide fatal l (fs, unc, m)) m := by
  intro l
  induction l with
  | nil => intro fs unc m; exact le_refl m
  | cons f rest ih =>
      intro fs unc m
      unfold processCommon
      split
      · exact ih fs unc m
      · split
        · next msg heq =>
            split
            · exact le_refl m
            · exact ih _ _ m
        · next tf rf heq =>
            dsimp only
            have h1 : m ≤ (compare_2_fields ncmp eps thr im true tf rf m).2 :=
              compare_2_fields_acc_mono ncmp eps thr im true tf rf m
            set r := compare_2_fields ncmp eps thr im true tf rf m with hr
            set fs2 := if !(r.1.dataBitRepro.getD false) || !hide then fs ++ [(fidStr f, r.1)] else fs with hfs2
            have h2 := ih fs2 unc r.2
            cases hres : processCommon ncmp fo eps thr im hide fatal rest (fs2, unc, r.2) with
            | error msg => simp [accOf, hres]
            | ok x =>
                rw [hres] at h2
                simp only [accOf] at h2 ⊢
                exact le_trans h1 h2

lemma processCommon_filter_ignored (ncmp : PyField → PyField → NormDiff × Bool)
    (fo : Fid → Except String (PyField × PyField))
    (eps thr : ℚ) (im hide fatal : Bool) :
    ∀ (l : List Fid) (acc : List (String × FieldStatus) × List Fid × ℚ),
      processCommon ncmp fo eps thr im hide fatal l acc =
        processCommon ncmp fo eps thr im hide fatal (l.filter (fun f => !ignore_field f)) acc := by
  intro l
  induction l with
  | nil => intro acc; rfl
  | cons f rest ih =>
      intro acc
      obtain ⟨fs, unc, m⟩ := acc
      by_cases hig : ignore_field f = true
      · rw [List.filter_cons_of_neg (by simp [hig])]
        conv_lhs => rw [processCommon]
        rw [if_pos hig]
        exact ih (fs, unc, m)
      · rw [List.filter_cons_of_pos (by simp [hig])]
        conv_lhs => rw [processCommon]
        conv_rhs => rw [processCommon]
        rw [if_neg hig, if_neg hig]
        cases hfo : fo f with
        | error msg =>
            dsimp only
            split
            · rfl
            · exact ih _
        | ok p =>
            obtain ⟨tf, rf⟩ := p
            dsimp only
            exact ih _

lemma mem_insertFid (x a : Fid) (l : List Fid) : x ∈ insertFid a l ↔ x = a ∨ x ∈ l := by
  induction l with
  | nil => simp [insertFid]
  | cons b rest ih =>
      unfold insertFid
      split
      · simp only [List.mem_cons, ih]
        tauto
      · simp only [List.mem_cons]

lemma mem_sortFids (x : Fid) (l : List Fid) : x ∈ sortFids l ↔ x ∈ l := by
  induction l with
  | nil => simp [sortFids]
  | cons a rest ih =>
      unfold sortFids
      rw [mem_insertFid, ih]
      simp

lemma mem_sortIfStr (a : Fid) (l : List Fid) : a ∈ sortIfStr l ↔ a ∈ l := by
  unfold sortIfStr
  match l with
  | [] => simp
  | Fid.fstr s :: rest => exact mem_sortFids a (Fid.fstr s :: rest)
  | Fid.fint n :: rest => simp

/-- C9: the running-maximum accumulator is monotone: `compare_2_fields`
returns an accumulator at least as large as the one passed in, and along the
common-field loop of `compare_2_files` the accumulator of the final state is
at least the accumulator of any starting state — it is threaded, never
reset, between fields of the same file pair. -/
theorem C9_accumulator_monotone :
    (∀ (ncmp : PyField → PyField → NormDiff × Bool) (eps thr : ℚ) (im vibro : Bool)
        (tf rf : PyField) (m : ℚ),
        m ≤ (compare_2_fields ncmp eps thr im vibro tf rf m).2) ∧
    (∀ (ncmp : PyField → PyField → NormDiff × Bool) (fo : Fid → Except String (PyField × PyField))
        (eps thr : ℚ) (im hide fatal : Bool) (l : List Fid)
        (fs : List (String × FieldStatus)) (unc : List Fid) (m : ℚ),
        m ≤ accOf (processCommon ncmp fo eps thr im hide fatal l (fs, unc, m)) m) :=
  ⟨fun ncmp eps thr im vibro tf rf m => compare_2_fields_acc_mono ncmp eps thr im vibro tf rf m,
   fun ncmp fo eps thr im hide fatal l fs unc m => processCommon_acc_mono ncmp fo eps thr im hide fatal l fs unc m⟩

/-- C6 counterexample: a field whose name matches the ignore rule
(`'SFX._FBUF_X'`), present only in the test file, appears in the
`'New fields'` list and (with `ignore_orphan_fields=False`) forces the
file-level `'Validated'` to `False` — contrary to the claim that such fields
are never counted as orphans. -/
theorem C6_counterexample :
    (compare_2_files ncmp0 fo6 1 1 false false true true true [Fid.fstr "SFX._FBUF_X"] []).map
        FileComp.newFields = Except.ok (some [Fid.fstr "SFX._FBUF_X"]) ∧
    (compare_2_files ncmp0 fo6 1 1 false false true true true [Fid.fstr "SFX._FBUF_X"] []).map
        FileComp.validated = Except.ok false ∧
    ignore_field (Fid.fstr "SFX._FBUF_X") = true :=
  ⟨rfl, rfl, by decide⟩

/-- C6 amended: a field matching the ignore rule is excluded from the
common-field comparison — the common-field loop behaves exactly as if ignored
fields were removed from the list: they contribute no per-field status, no
"unable to compare" entry and no accumulator update. (They do still appear in
the new/lost partitions, cf. the counterexample.) -/
theorem C6_ignored_not_compared :
    ∀ (ncmp : PyField → PyField → NormDiff × Bool) (fo : Fid → Except String (PyField × PyField))
      (eps thr : ℚ) (im hide fatal : Bool) (l : List Fid)
      (acc : List (String × FieldStatus) × List Fid × ℚ),
      processCommon ncmp fo eps thr im hide fatal l acc =
        processCommon ncmp fo eps thr im hide fatal (l.filter (fun f => !ignore_field f)) acc :=
  fun ncmp fo eps thr im hide fatal l acc => processCommon_filter_ignored ncmp fo eps thr im hide fatal l acc

/-- C10: when every common field matches the ignore rule (in particular when
the field lists are disjoint), the per-field status collection is empty, so
`'Bit-reproducible'` is `True` unconditionally and `'Validated'` is `True`
when `ignore_orphan_fields` is `True` (both aggregates are conjunctions over
an empty collection). -/
theorem C10_empty_common_vacuous (ncmp : PyField → PyField → NormDiff × Bool)
    (fo : Fid → Except String (PyField × PyField)) (eps thr : ℚ)
    (im hide vibro fatal : Bool) (test_list ref_list : List Fid)
    (h : ∀ f ∈ test_list, f ∈ ref_list → ignore_field f = true) :
    (∀ io : Bool,
      (compare_2_files ncmp fo eps thr im io hide vibro fatal test_list ref_list).map
        FileComp.bitReproducible = Except.ok true) ∧
    (compare_2_files ncmp fo eps thr im true hide vibro fatal test_list ref_list).map
        FileComp.validated = Except.ok true := by
  have hpc : ∀ io : Bool,
      processCommon ncmp fo eps thr im hide fatal
        (sortIfStr (test_list.filter (fun f => ref_list.contains f))) ([], [], 0) =
        Except.ok ([], [], 0) := by
    intro io
    rw [processCommon_filter_ignored]
    have hnil : (sortIfStr (test_list.filter (fun f => ref_list.contains f))).filter
        (fun f => !ignore_field f) = [] := by
      rw [List.filter_eq_nil_iff]
      intro a ha
      have ha2 : a ∈ test_list.filter (fun f => ref_list.contains f) := (mem_sortIfStr a _).mp ha
      have ha3 := List.mem_filter.mp ha2
      have := h a ha3.1 (by simpa using ha3.2)
      simp [this]
    rw [hnil]
    rfl
  constructor
  · intro io
    unfold compare_2_files
    dsimp only
    rw [hpc io]
    rfl
  · unfold compare_2_files
    dsimp only
    rw [hpc true]
    rfl

/-- C2 (code bug): the status aggregation raises instead of assigning a
status: a panel of one non-side expert whose result document binds
`'Validated'` to a non-boolean value (e.g. `None`) leaves the local variable
`status` unbound, and the update block raises `UnboundLocalError`. -/
theorem C2_aggregation_raises :
    board_status [⟨"a", false⟩] none { entries := [("a", vOtherDoc)] } =
      Except.error "UnboundLocalError: status" := rfl

/-- C4 (code bug): for floating-point data equal within the epsilon tolerance
but not exactly equal, `compare_2_fields` sets `'Data bit-repro'` to `False`:
since `isinstance(dtype, (int, float))` is always `False`, the epsilon branch
is dead code and floating data is compared with exact equality, whereas the
claim (and the spec) state equality up to `EPSILON`; the spec-modelled
predicate `spec_float_bit_repro` indeed accepts the pair. -/
theorem C4_float_exact_equality (ncmp : PyField → PyField → NormDiff × Bool)
    (thr : ℚ) (im vibro : Bool) (m : ℚ) (eps : ℚ) (heps : 0 < eps) :
    spec_float_bit_repro eps [0] [eps / 2] = true ∧
    ((compare_2_fields ncmp eps thr im vibro
        { isMisc := false, arr := { dtype := DType.dfloat, shape := [1], data := [0] }, validity := 0, geometry := 0 }
        { isMisc := false, arr := { dtype := DType.dfloat, shape := [1], data := [eps / 2] }, validity := 0, geometry := 0 }
        m).1).dataBitRepro = some false := by
  constructor
  · unfold spec_float_bit_repro
    simp only [List.zip, List.zipWith, List.all_cons, List.all_nil, Bool.and_true,
      decide_eq_true_eq]
    rw [zero_sub, abs_neg, abs_of_nonneg (by positivity)]
    linarith
  · have hne : ((0 : ℚ) == eps / 2) = false := by
      rw [beq_eq_false_iff_ne]
      exact fun hcontra => absurd hcontra.symm (ne_of_gt (by positivity))
    unfold compare_2_fields
    rw [if_neg (by simp)]
    simp only [dtype_isinstance_int_float, Bool.false_eq_true, if_false, np_all_eq,
      List.zip, List.zipWith, List.all_cons, List.all_nil, hne, Bool.false_and]

/-- C4 witness at epsilon 1: data 0 versus 1/2. -/
theorem C4_float_exact_equality_witness :
    spec_float_bit_repro 1 [0] [1 / 2] = true ∧
    ((compare_2_fields ncmp0 1 1 false true
        { isMisc := false, arr := { dtype := DType.dfloat, shape := [1], data := [0] }, validity := 0, geometry := 0 }
        { isMisc := false, arr := { dtype := DType.dfloat, shape := [1], data := [1 / 2] }, validity := 0, geometry := 0 }
        0).1).dataBitRepro = some false :=
  C4_float_exact_equality ncmp0 1 false true 0 1 (by norm_num)

/-- C5 (code bug): `hide_bit_repro_fields` changes the aggregate booleans.
One common field whose data is bit-identical but whose validity descriptor
differs: with `hide_bit_repro_fields=True` the field is omitted and the file
reports `Validated=True`, `Bit-reproducible=True`; with `False` it reports
`Validated=False`, `Bit-reproducible=False` — contrary to the claim that the
two aggregates do not depend on this option. -/
theorem C5_hide_changes_aggregates :
    (compare_2_files ncmp0 fo5 1 1 false false true true true [Fid.fstr "A"] [Fid.fstr "A"]).map
        FileComp.validated = Except.ok true ∧
    (compare_2_files ncmp0 fo5 1 1 false false false true true [Fid.fstr "A"] [Fid.fstr "A"]).map
        FileComp.validated = Except.ok false ∧
    (compare_2_files ncmp0 fo5 1 1 false false true true true [Fid.fstr "A"] [Fid.fstr "A"]).map
        FileComp.bitReproducible = Except.ok true ∧
    (compare_2_files ncmp0 fo5 1 1 false false false true true [Fid.fstr "A"] [Fid.fstr "A"]).map
        FileComp.bitReproducible = Except.ok false :=
  ⟨rfl, rfl, rfl, rfl⟩

/-- C8: with both reference arguments empty or `None`, `process` never
invokes `compare` and marks both categories with status `'0'`,
`'No reference to be compared to'`. -/
theorem C8_no_reference (panel : List Expert) (lead : Option String)
    (ecompare : Expert → List Ref → ResultDoc)
    (consistency continuity : Option (List Ref))
    (hc : refList consistency = []) (ht : refList continuity = []) :
    board_process panel lead ecompare consistency continuity =
      Except.ok { compareInvoked := false, consistencyOut := notifySummary, continuityOut := notifySummary } ∧
    notifySummary.comparisonStatus = ⟨"0", "- No ref -", "No reference to be compared to"⟩ := by
  constructor
  · unfold board_process
    rw [hc, ht]
    rfl
  · rfl

/-- C8 witness: one `None` argument and one empty list. -/
theorem C8_no_reference_witness :
    board_process [⟨"norms", false⟩] none (fun _ _ => {}) none (some []) =
      Except.ok { compareInvoked := false, consistencyOut := notifySummary, continuityOut := notifySummary } :=
  (C8_no_reference [⟨"norms", false⟩] none (fun _ _ => {}) none (some []) rfl rfl).1

/-- C10 witness: the single common field matches the ignore rule. -/
theorem C10_empty_common_vacuous_witness :
    (∀ io : Bool,
      (compare_2_files ncmp0 fo6 1 1 false io true true true
        [Fid.fstr "SFX._FBUF_A"] [Fid.fstr "SFX._FBUF_A"]).map
          FileComp.bitReproducible = Except.ok true) ∧
    (compare_2_files ncmp0 fo6 1 1 false true true true true
        [Fid.fstr "SFX._FBUF_A"] [Fid.fstr "SFX._FBUF_A"]).map
          FileComp.validated = Except.ok true :=
  C10_empty_common_vacuous ncmp0 fo6 1 1 false true true true
    [Fid.fstr "SFX._FBUF_A"] [Fid.fstr "SFX._FBUF_A"] (by decide)

lemma applyUpdate_entries {a b : AggState} (h : applyUpdate a = Except.ok b) :
    b.entries = a.entries := by
  unfold applyUpdate at h
  split at h
  · simp at h
  · split at h
    · split at h
      · cases h; rfl
      · cases h; rfl
    · cases h; rfl

lemma applyUpdate_statusVar {a b : AggState} (h : applyUpdate a = Except.ok b) :
    b.statusVar = a.statusVar := by
  unfold applyUpdate at h
  split at h
  · simp at h
  · split at h
    · split at h
      · cases h; rfl
      · cases h; rfl
    · cases h; rfl

lemma applyUpdate_mono {a b : AggState} (h : applyUpdate a = Except.ok b) :
    statusIndex a.compStatus.symbol ≤ statusIndex b.compStatus.symbol := by
  unfold applyUpdate at h
  split at h
  · simp at h
  · next sv heq =>
      split at h
      · next hge =>
          split at h
          · next hand =>
              cases h
              exact le_refl _
          · cases h
            exact hge
      · next hge =>
          cases h
          exact le_refl _

lemma applyUpdate_sv_le {a b : AggState} (h : applyUpdate a = Except.ok b)
    {sv : Status} (hsv : a.statusVar = some sv) :
    statusIndex sv.symbol ≤ statusIndex b.compStatus.symbol := by
  unfold applyUpdate at h
  split at h
  · next heq => simp [heq] at hsv
  · next sv2 heq =>
      rw [heq] at hsv
      injection hsv with hsv2
      subst hsv2
      split at h
      · next hge =>
          split at h
          · next hand =>
              have hsym : sv2.symbol = a.compStatus.symbol :=
                beq_iff_eq.mp ((Bool.and_eq_true _ _).mp hand).1
              cases h
              rw [hsym]
          · cases h
            exact le_refl _
      · next hge =>
          cases h
          exact Nat.le_of_lt (Nat.lt_of_not_le hge)

lemma statusRest_entries {e : Expert} {st st' : AggState} (h : statusRest e st = Except.ok st') :
    st'.entries = st.entries := by
  unfold statusRest at h
  split at h
  · cases h; rfl
  · split at h
    · simp at h
    · have h2 := applyUpdate_entries h
      exact h2

lemma statusRest_mono {e : Expert} {st st' : AggState} (h : statusRest e st = Except.ok st') :
    statusIndex st.compStatus.symbol ≤ statusIndex st'.compStatus.symbol := by
  unfold statusRest at h
  split at h
  · cases h; exact le_refl _
  · split at h
    · simp at h
    · have h2 := applyUpdate_mono h
      exact h2

lemma statusStep_entries_of_not_plus {panel : List Expert} {e : Expert} {st st' : AggState}
    (hnp : docIsPlus st.entries e.kind = false)
    (h : statusStep panel e st = Except.ok st') : st'.entries = st.entries := by
  unfold statusStep at h
  split at h
  · next doc hf =>
      unfold docIsPlus at hnp
      rw [hf] at hnp
      dsimp only at hnp
      split at h
      · next ss hss =>
          unfold docPlusDoc at hnp
          rw [hss] at hnp
          dsimp only at hnp
          rw [if_neg (by simp [hnp])] at h
          exact statusRest_entries h
      · exact statusRest_entries h
  · exact statusRest_entries h

lemma statusStep_mono {panel : List Expert} {e : Expert} {st st' : AggState}
    (h : statusStep panel e st = Except.ok st') :
    statusIndex st.compStatus.symbol ≤ statusIndex st'.compStatus.symbol := by
  unfold statusStep at h
  split at h
  · next doc hf =>
      split at h
      · next ss hss =>
          split at h
          · have h2 := applyUpdate_mono h
            exact h2
          · exact statusRest_mono h
      · exact statusRest_mono h
  · exact statusRest_mono h

lemma runAgg_bind (panel : List Expert) (l1 l2 : List Expert) (st : AggState) :
    runAgg panel (l1 ++ l2) st =
      match runAgg panel l1 st with
      | Except.error msg => Except.error msg
      | Except.ok mid => runAgg panel l2 mid := by
  induction l1 generalizing st with
  | nil => rfl
  | cons e rest ih =>
      cases hstep : statusStep panel e st with
      | error msg => simp only [List.cons_append, runAgg, hstep]
      | ok st2 =>
          simp only [List.cons_append, runAgg, hstep]
          exact ih st2

lemma runAgg_mono {panel l : List Expert} {st st' : AggState}
    (h : runAgg panel l st = Except.ok st') :
    statusIndex st.compStatus.symbol ≤ statusIndex st'.compStatus.symbol := by
  induction l generalizing st with
  | nil =>
      unfold runAgg at h
      cases h
      exact le_refl _
  | cons e rest ih =>
      unfold runAgg at h
      split at h
      · simp at h
      · next st2 hstep =>
          exact le_trans (statusStep_mono hstep) (ih h)

lemma runAgg_entries_const {panel : List Expert} :
    ∀ {l : List Expert} {st st' : AggState},
      (∀ e ∈ l, docIsPlus st.entries e.kind = false) →
      runAgg panel l st = Except.ok st' → st'.entries = st.entries := by
  intro l
  induction l with
  | nil =>
      intro st st' hnp h
      unfold runAgg at h
      cases h
      rfl
  | cons e rest ih =>
      intro st st' hnp h
      unfold runAgg at h
      split at h
      · simp at h
      · next st2 hstep =>
          have he : st2.entries = st.entries :=
            statusStep_entries_of_not_plus (hnp e (by simp)) hstep
          have hnp2 : ∀ e2 ∈ rest, docIsPlus st2.entries e2.kind = false := by
            intro e2 he2
            rw [he]
            exact hnp e2 (by simp [he2])
          rw [← he]
          exact ih hnp2 h

/-- Every status symbol that ever reaches `comparisonStatus` or the local
variable `status` belongs to the seven-symbol severity order. -/
def symOK (st : AggState) : Prop :=
  statusIndex st.compStatus.symbol ≤ 6 ∧
    ∀ sv : Status, st.statusVar = some sv → statusIndex sv.symbol ≤ 6

lemma computeVar_bound {es : Entries} {e : Expert} {old : Option Status} {nv : Option Status}
    (h : computeVar es e old = Except.ok nv)
    (hold : ∀ sv : Status, old = some sv → statusIndex sv.symbol ≤ 6) :
    ∀ sv : Status, nv = some sv → statusIndex sv.symbol ≤ 6 := by
  unfold computeVar at h
  split at h
  · split at h
    · split at h
      · cases h
        intro sv hsv
        injection hsv with hsv2
        subst hsv2
        exact (by decide : statusIndex "OK" ≤ 6)
      · simp at h
    · split at h
      · cases h
        intro sv hsv
        injection hsv with hsv2
        subst hsv2
        exact (by decide : statusIndex "KO" ≤ 6)
      · simp at h
    · cases h
      exact hold
    · split at h
      · cases h
        intro sv hsv
        injection hsv with hsv2
        subst hsv2
        decide
      · split at h
        · next cs hcs =>
            split at h
            · next h0 =>
                cases h
                intro sv hsv
                injection hsv with hsv2
                subst hsv2
                rw [beq_iff_eq.mp h0]
                decide
            · cases h
              intro sv hsv
              injection hsv with hsv2
              subst hsv2
              decide
        · cases h
          intro sv hsv
          injection hsv with hsv2
          subst hsv2
          decide
  · cases h
    intro sv hsv
    injection hsv with hsv2
    subst hsv2
    decide

lemma applyUpdate_symOK {a b : AggState} (ha : symOK a) (h : applyUpdate a = Except.ok b) :
    symOK b := by
  obtain ⟨h1, h2⟩ := ha
  unfold applyUpdate at h
  split at h
  · simp at h
  · next sv heq =>
      have hsv6 : statusIndex sv.symbol ≤ 6 := h2 sv heq
      split at h
      · split at h
        · cases h
          exact ⟨h1, h2⟩
        · cases h
          exact ⟨hsv6, h2⟩
      · cases h
        exact ⟨h1, h2⟩

lemma statusStep_symOK {panel : List Expert} {e : Expert} {st st' : AggState}
    (hst : symOK st) (h : statusStep panel e st = Except.ok st') : symOK st' := by
  unfold statusStep at h
  have hrest : statusRest e st = Except.ok st' → symOK st' := by
    intro hr
    unfold statusRest at hr
    split at hr
    · cases hr
      exact hst
    · split at hr
      · simp at hr
      · next nv hcv =>
          have hb := computeVar_bound hcv hst.2
          have h2 := applyUpdate_symOK (a := { st with statusVar := nv }) ⟨hst.1, hb⟩ hr
          exact h2
  split at h
  · next doc hf =>
      split at h
      · next ss hss =>
          split at h
          · next hplus =>
              have hss6 : statusIndex ss.symbol ≤ 6 := by
                rw [beq_iff_eq.mp hplus]
                decide
              have h2 := applyUpdate_symOK
                (a := { entries := popAll panel st.entries, compStatus := st.compStatus, statusVar := some ss })
                ⟨hst.1, by intro sv hsv; injection hsv with hsv2; subst hsv2; exact hss6⟩ h
              exact h2
          · exact hrest h
      · exact hrest h
  · exact hrest h

lemma runAgg_symOK {panel : List Expert} :
    ∀ {l : List Expert} {st st' : AggState},
      symOK st → runAgg panel l st = Except.ok st' → symOK st' := by
  intro l
  induction l with
  | nil =>
      intro st st' hst h
      unfold runAgg at h
      cases h
      exact hst
  | cons e rest ih =>
      intro st st' hst h
      unfold runAgg at h
      split at h
      · simp at h
      · next st2 hstep =>
          exact ih (statusStep_symOK hst hstep) h

lemma summFind_popAll {panel : List Expert} {e : Expert} (he : e ∈ panel) (es : Entries) :
    summFind (popAll panel es) e.kind = none := by
  unfold summFind popAll
  rw [Option.map_eq_none', List.find?_eq_none]
  intro p hp
  have hmem := List.mem_filter.mp hp
  intro hk
  have hany : panel.any (fun e2 => e2.kind == p.1) = true :=
    List.any_eq_true.mpr ⟨e, he, by rw [beq_iff_eq] at hk ⊢; exact hk.symm⟩
  rw [hany] at hmem
  simp at hmem

lemma summFind_some_mem {es : Entries} {k : String} {d : ResultDoc}
    (h : summFind es k = some d) : ∃ p ∈ es, p.1 = k ∧ p.2 = d := by
  unfold summFind at h
  rw [Option.map_eq_some'] at h
  obtain ⟨p, hp, hd⟩ := h
  have hmem := List.mem_of_find?_eq_some hp
  have hpred := List.find?_some hp
  simp only [beq_iff_eq] at hpred
  exact ⟨p, hmem, hpred, hd⟩

lemma summFind_some_ne_nil {es : Entries} {k : String} {d : ResultDoc}
    (h : summFind es k = some d) : es ≠ [] := by
  intro hnil
  subst hnil
  simp [summFind] at h

lemma docIsPlus_of_all_false {es : Entries} {k : String}
    (h : ∀ p ∈ es, docPlusDoc p.2 = false) : docIsPlus es k = false := by
  unfold docIsPlus
  cases hf : summFind es k with
  | none => rfl
  | some d =>
      obtain ⟨p, hp, _, hd⟩ := summFind_some_mem hf
      rw [← hd]
      exact h p hp

lemma statusStep_find_none {panel : List Expert} {e : Expert} {st : AggState}
    (hf : summFind st.entries e.kind = none) :
    statusStep panel e st = statusRest e st := by
  unfold statusStep
  rw [hf]

lemma statusStep_find_not_plus {panel : List Expert} {e : Expert} {st : AggState} {doc : ResultDoc}
    (hf : summFind st.entries e.kind = some doc) (hnp : docPlusDoc doc = false) :
    statusStep panel e st = statusRest e st := by
  unfold statusStep
  rw [hf]
  dsimp only
  cases hss : doc.selfStatus with
  | none => rfl
  | some ss =>
      unfold docPlusDoc at hnp
      rw [hss] at hnp
      dsimp only at hnp
      dsimp only
      rw [if_neg (by simp [hnp])]

lemma statusStep_find_plus {panel : List Expert} {e : Expert} {st : AggState}
    {doc : ResultDoc} {ss : Status}
    (hf : summFind st.entries e.kind = some doc) (hss : doc.selfStatus = some ss)
    (hsym : ss.symbol = "+") :
    statusStep panel e st =
      applyUpdate { entries := popAll panel st.entries, compStatus := st.compStatus, statusVar := some ss } := by
  unfold statusStep
  rw [hf]
  dsimp only
  rw [hss]
  dsimp only
  rw [if_pos (by rw [hsym]; rfl)]

lemma computeVar_find_none {es : Entries} {e : Expert} {old : Option Status}
    (hf : summFind es e.kind = none) :
    computeVar es e old = Except.ok (some unknownStatus) := by
  unfold computeVar
  rw [hf]

lemma runAgg_tail_fixed {panel : List Expert} :
    ∀ {l : List Expert} {st : AggState},
      (∀ e ∈ l, summFind st.entries e.kind = none) →
      3 ≤ statusIndex st.compStatus.symbol →
      ∃ sv : Option Status,
        runAgg panel l st =
          Except.ok { entries := st.entries, compStatus := st.compStatus, statusVar := sv } := by
  intro l
  induction l with
  | nil =>
      intro st hnone h3
      exact ⟨st.statusVar, rfl⟩
  | cons e rest ih =>
      intro st hnone h3
      have hstep : statusStep panel e st =
          Except.ok (if e.side_expert then st else { st with statusVar := some unknownStatus }) := by
        rw [statusStep_find_none (hnone e (by simp))]
        unfold statusRest
        by_cases hside : e.side_expert = true
        · rw [if_pos hside, if_pos hside]
        · rw [if_neg hside, if_neg hside, computeVar_find_none (hnone e (by simp))]
          dsimp only
          unfold applyUpdate
          dsimp only
          rw [if_neg]
          have h2 : statusIndex unknownStatus.symbol = 2 := by decide
          omega
      unfold runAgg
      rw [hstep]
      dsimp only
      by_cases hside : e.side_expert = true
      · rw [if_pos hside]
        exact ih (fun e2 he2 => hnone e2 (by simp [he2])) h3
      · rw [if_neg hside]
        exact ih (fun e2 he2 => hnone e2 (by simp [he2])) h3

/-- C1 (amended): when the aggregation terminates normally, if `ep` is the
first expert of the panel whose result document carries the top-level status
symbol `'+'`, then the final `comparisonStatus` is exactly that document's
status record, and every expert's individual entry is absent from the final
category document. -/
theorem C1_plus_short_circuit
    (panel pre post : List Expert) (ep : Expert) (lead : Option String)
    (s : CompSummary) (doc : ResultDoc) (pstat : Status) (fin : FinalSummary)
    (hpanel : panel = pre ++ ep :: post)
    (hpre : ∀ e ∈ pre, docIsPlus s.entries e.kind = false)
    (hdoc : summFind s.entries ep.kind = some doc)
    (hss : doc.selfStatus = some pstat)
    (hsym : pstat.symbol = "+")
    (hok : board_status panel lead s = Except.ok fin) :
    fin.comparisonStatus = pstat ∧ ∀ e ∈ panel, summFind fin.entries e.kind = none := by
  subst hpanel
  have hne : s.entries.isEmpty = false := by
    cases hent : s.entries with
    | nil => rw [hent] at hdoc; simp [summFind] at hdoc
    | cons a l => rfl
  unfold board_status at hok
  rw [if_neg (by simp [hne])] at hok
  cases hrun : runAgg (pre ++ ep :: post) (pre ++ ep :: post)
      { entries := s.entries, compStatus := noExpertStatus, statusVar := none } with
  | error msg => rw [hrun] at hok; simp at hok
  | ok fstate =>
      rw [hrun] at hok
      dsimp only at hok
      injection hok with hok2
      rw [runAgg_bind] at hrun
      cases hrunpre : runAgg (pre ++ ep :: post) pre
          { entries := s.entries, compStatus := noExpertStatus, statusVar := none } with
      | error msg => rw [hrunpre] at hrun; simp at hrun
      | ok mid =>
          rw [hrunpre] at hrun
          dsimp only at hrun
          have hmident : mid.entries = s.entries := runAgg_entries_const hpre hrunpre
          have hmidsym : symOK mid :=
            runAgg_symOK ⟨(by decide : statusIndex noExpertStatus.symbol ≤ 6),
              fun sv h => Option.noConfusion h⟩ hrunpre
          unfold runAgg at hrun
          rw [@statusStep_find_plus (pre ++ ep :: post) ep mid doc pstat
            (by rw [hmident]; exact hdoc) hss hsym] at hrun
          have happ : applyUpdate
              { entries := popAll (pre ++ ep :: post) mid.entries,
                compStatus := mid.compStatus, statusVar := some pstat } =
              Except.ok { entries := popAll (pre ++ ep :: post) mid.entries,
                          compStatus := pstat, statusVar := some pstat } := by
            unfold applyUpdate
            dsimp only
            rw [if_pos, if_neg]
            · rw [hsym]
              simp
            · rw [hsym]
              have h6 : statusIndex "+" = 6 := by decide
              have h7 := hmidsym.1
              omega
          rw [happ] at hrun
          dsimp only at hrun
          obtain ⟨sv, hrunpost⟩ := @runAgg_tail_fixed (pre ++ ep :: post) post
            { entries := popAll (pre ++ ep :: post) mid.entries,
              compStatus := pstat, statusVar := some pstat }
            (fun e2 he2 => summFind_popAll (by simp [he2]) mid.entries)
            (by rw [hsym]; decide)
          rw [hrunpost] at hrun
          injection hrun with hfst
          constructor
          · rw [← hok2, ← hfst]
          · intro e he
            rw [← hok2, ← hfst]
            exact summFind_popAll he mid.entries

/-- C1 witness: a panel of one expert whose document carries `'+'`. -/
theorem C1_plus_short_circuit_witness :
    ∃ fin : FinalSummary,
      board_status [⟨"p", false⟩] none { entries := [("p", plusDoc)] } = Except.ok fin ∧
      fin.comparisonStatus = plusStat ∧
      ∀ e ∈ [(⟨"p", false⟩ : Expert)], summFind fin.entries e.kind = none := by
  have h : board_status [⟨"p", false⟩] none { entries := [("p", plusDoc)] } =
      Except.ok { refTask := none, entries := [], comparisonStatus := plusStat, leadExpert := some "p" } := by
    rfl
  have hc := C1_plus_short_circuit [⟨"p", false⟩] [] [] ⟨"p", false⟩ none
    { entries := [("p", plusDoc)] } plusDoc plusStat _ rfl
    (by intro e he; cases he) rfl rfl rfl h
  exact ⟨_, h, hc.1, hc.2⟩

/-- C1 counterexample: expert `a` (non-side, `'Validated': None`) precedes
expert `b` whose document carries `'+'`; the aggregation raises before
reaching the short-circuit, so no final status equal to `b`'s is produced
and the entries are not cleared. -/
theorem C1_counterexample :
    docIsPlus [("a", vOtherDoc), ("b", plusDoc)] "b" = true ∧
    board_status [⟨"a", false⟩, ⟨"b", false⟩] none
        { entries := [("a", vOtherDoc), ("b", plusDoc)] } =
      Except.error "UnboundLocalError: status" :=
  ⟨rfl, rfl⟩

lemma noPlusDocs_mem {es : Entries} (h : noPlusDocs es = true) :
    ∀ p ∈ es, docPlusDoc p.2 = false := by
  intro p hp
  have h2 := List.all_eq_true.mp h p hp
  simpa using h2

/-- C3 (amended): when the aggregation terminates normally, if some non-side
expert's document contains `'Validated': False` and no document carries
`'+'`, the final `comparisonStatus` sits at rank 4 to 6 of the severity order
`['-','0','?','OK','KO','!','+']`, i.e. it is `'KO'`, `'!'` or `'+'` — never
`'-'`, `'0'`, `'?'` or `'OK'`. -/
theorem C3_ko_monotone
    (panel : List Expert) (lead : Option String) (s : CompSummary)
    (e : Expert) (doc : ResultDoc) (fin : FinalSummary)
    (hmem : e ∈ panel) (hside : e.side_expert = false)
    (hdoc : summFind s.entries e.kind = some doc)
    (hval : doc.validated = some VBool.vFalse)
    (hnp : noPlusDocs s.entries = true)
    (hok : board_status panel lead s = Except.ok fin) :
    4 ≤ statusIndex fin.comparisonStatus.symbol ∧
      statusIndex fin.comparisonStatus.symbol ≤ 6 := by
  obtain ⟨pre, post, hpanel⟩ := List.append_of_mem hmem
  subst hpanel
  have hnpm : ∀ p ∈ s.entries, docPlusDoc p.2 = false := noPlusDocs_mem hnp
  have hplusF : ∀ k, docIsPlus s.entries k = false :=
    fun k => docIsPlus_of_all_false hnpm
  have hdplus : docPlusDoc doc = false := by
    obtain ⟨p, hp, _, hd⟩ := summFind_some_mem hdoc
    rw [← hd]
    exact hnpm p hp
  have hne : s.entries.isEmpty = false := by
    cases hent : s.entries with
    | nil => rw [hent] at hdoc; simp [summFind] at hdoc
    | cons a l => rfl
  unfold board_status at hok
  rw [if_neg (by simp [hne])] at hok
  cases hrun : runAgg (pre ++ e :: post) (pre ++ e :: post)
      { entries := s.entries, compStatus := noExpertStatus, statusVar := none } with
  | error msg => rw [hrun] at hok; simp at hok
  | ok fstate =>
      rw [hrun] at hok
      dsimp only at hok
      injection hok with hok2
      rw [runAgg_bind] at hrun
      cases hrunpre : runAgg (pre ++ e :: post) pre
          { entries := s.entries, compStatus := noExpertStatus, statusVar := none } with
      | error msg => rw [hrunpre] at hrun; simp at hrun
      | ok mid =>
          rw [hrunpre] at hrun
          dsimp only at hrun
          have hmident : mid.entries = s.entries :=
            runAgg_entries_const (fun e2 _ => hplusF e2.kind) hrunpre
          have hmidsym : symOK mid :=
            runAgg_symOK ⟨(by decide : statusIndex noExpertStatus.symbol ≤ 6),
              fun sv h => Option.noConfusion h⟩ hrunpre
          unfold runAgg at hrun
          rw [@statusStep_find_not_plus (pre ++ e :: post) e mid doc
            (by rw [hmident]; exact hdoc) hdplus] at hrun
          unfold statusRest at hrun
          rw [if_neg (by simp [hside])] at hrun
          cases hmm : doc.validatedMeans with
          | none =>
              have hcv : computeVar mid.entries e mid.statusVar =
                  Except.error "KeyError: Validated means" := by
                unfold computeVar
                rw [hmident, hdoc]
                dsimp only
                rw [hval]
                dsimp only
                rw [hmm]
              rw [hcv] at hrun
              simp at hrun
          | some mtext =>
              have hcv : computeVar mid.entries e mid.statusVar =
                  Except.ok (some (koStatusOf mtext)) := by
                unfold computeVar
                rw [hmident, hdoc]
                dsimp only
                rw [hval]
                dsimp only
                rw [hmm]
              rw [hcv] at hrun
              dsimp only at hrun
              cases happ : applyUpdate { mid with statusVar := some (koStatusOf mtext) } with
              | error m2 => rw [happ] at hrun; simp at hrun
              | ok st2 =>
                  rw [happ] at hrun
                  dsimp only at hrun
                  have h1 : statusIndex (koStatusOf mtext).symbol ≤
                      statusIndex st2.compStatus.symbol :=
                    applyUpdate_sv_le happ rfl
                  have h2 : statusIndex st2.compStatus.symbol ≤
                      statusIndex fstate.compStatus.symbol := runAgg_mono hrun
                  have hko : statusIndex (koStatusOf mtext).symbol = 4 :=
                    (by decide : statusIndex "KO" = 4)
                  have hsymok : symOK fstate := by
                    have ha : symOK { mid with statusVar := some (koStatusOf mtext) } :=
                      ⟨hmidsym.1, by
                        intro sv h
                        injection h with h2
                        subst h2
                        exact (by decide : statusIndex "KO" ≤ 6)⟩
                    exact runAgg_symOK (applyUpdate_symOK ha happ) hrun
                  constructor
                  · rw [← hok2]
                    have : (4 : Nat) ≤ statusIndex fstate.compStatus.symbol := by omega
                    exact this
                  · rw [← hok2]
                    exact hsymok.1

/-- C3 witness: a single non-side expert reporting `'Validated': False`. -/
theorem C3_ko_monotone_witness :
    ∃ fin : FinalSummary,
      board_status [⟨"b", false⟩] none { entries := [("b", koDocM)] } = Except.ok fin ∧
      4 ≤ statusIndex fin.comparisonStatus.symbol ∧
        statusIndex fin.comparisonStatus.symbol ≤ 6 := by
  have h : board_status [⟨"b", false⟩] none { entries := [("b", koDocM)] } =
      Except.ok { refTask := none, entries := [("b", koDocM)],
                  comparisonStatus := koStatusOf "m", leadExpert := some "b" } := by
    rfl
  exact ⟨_, h, C3_ko_monotone [⟨"b", false⟩] none { entries := [("b", koDocM)] }
    ⟨"b", false⟩ koDocM _ (by simp) rfl rfl rfl (by decide) h⟩

/-- C3 counterexample: expert `a` (non-side, `'Validated': None`) precedes
expert `b` reporting `'Validated': False` and no document carries `'+'`; the
aggregation raises, so no `comparisonStatus` at all (in particular none
ranking at least `'KO'`) is assigned. -/
theorem C3_counterexample :
    (summFind [("a", vOtherDoc), ("b", koDocM)] "b" = some koDocM ∧
      koDocM.validated = some VBool.vFalse) ∧
    noPlusDocs [("a", vOtherDoc), ("b", koDocM)] = true ∧
    board_status [⟨"a", false⟩, ⟨"b", false⟩] none
        { entries := [("a", vOtherDoc), ("b", koDocM)] } =
      Except.error "UnboundLocalError: status" :=
  ⟨⟨rfl, rfl⟩, rfl, rfl⟩

lemma statusRest_side {e : Expert} {st : AggState} (hsd : e.side_expert = true) :
    statusRest e st = Except.ok st := by
  unfold statusRest
  rw [if_pos hsd]

lemma summFind_eraseKey_self (k : String) (es : Entries) :
    summFind (eraseKey k es) k = none := by
  unfold summFind eraseKey
  rw [Option.map_eq_none', List.find?_eq_none]
  intro p hp
  have hmem := List.mem_filter.mp hp
  intro hk
  rw [beq_iff_eq] at hk
  rw [hk] at hmem
  simp at hmem

lemma summFind_eraseKey_ne {k k2 : String} (hne : k2 ≠ k) (es : Entries) :
    summFind (eraseKey k es) k2 = summFind es k2 := by
  induction es with
  | nil => rfl
  | cons p rest ih =>
      by_cases hp : p.1 = k
      · have h1 : eraseKey k (p :: rest) = eraseKey k rest := by
          unfold eraseKey
          rw [List.filter_cons_of_neg (by simp [hp])]
        have h2 : summFind (p :: rest) k2 = summFind rest k2 := by
          unfold summFind
          rw [List.find?_cons_of_neg _ (by simp [hp]; exact fun hc => hne (hc ▸ hp ▸ rfl))]
        rw [h1, ih, h2]
      · have h1 : eraseKey k (p :: rest) = p :: eraseKey k rest := by
          unfold eraseKey
          rw [List.filter_cons_of_pos (by simp [hp])]
        rw [h1]
        unfold summFind
        by_cases hpk : p.1 = k2
        · rw [List.find?_cons_of_pos _ (by simp [hpk]), List.find?_cons_of_pos _ (by simp [hpk])]
        · rw [List.find?_cons_of_neg _ (by simp [hpk]), List.find?_cons_of_neg _ (by simp [hpk])]
          exact ih

lemma popAll_eraseKey (panel : List Expert) (k : String) (es : Entries) :
    popAll panel (eraseKey k es) = eraseKey k (popAll panel es) := by
  unfold popAll eraseKey
  rw [List.filter_filter, List.filter_filter]
  apply List.filter_congr
  intro p hp
  exact Bool.and_comm _ _

lemma computeVar_congr {A B : Entries} {e : Expert} (v : Option Status)
    (hfind : summFind A e.kind = summFind B e.kind) :
    computeVar A e v = computeVar B e v := by
  unfold computeVar
  rw [hfind]

lemma applyUpdate_pair (A B : Entries) (c : Status) (v : Option Status) :
    (∃ msg, applyUpdate ⟨A, c, v⟩ = Except.error msg ∧
            applyUpdate ⟨B, c, v⟩ = Except.error msg) ∨
    (∃ c2 v2, applyUpdate ⟨A, c, v⟩ = Except.ok ⟨A, c2, v2⟩ ∧
              applyUpdate ⟨B, c, v⟩ = Except.ok ⟨B, c2, v2⟩) := by
  unfold applyUpdate
  cases v with
  | none => exact Or.inl ⟨"UnboundLocalError: status", rfl, rfl⟩
  | some sv =>
      dsimp only
      split
      · split
        · exact Or.inr ⟨_, _, rfl, rfl⟩
        · exact Or.inr ⟨_, _, rfl, rfl⟩
      · exact Or.inr ⟨_, _, rfl, rfl⟩

lemma statusRest_pair (e : Expert) (A B : Entries) (c : Status) (v : Option Status)
    (hfind : summFind A e.kind = summFind B e.kind) :
    (∃ msg, statusRest e ⟨A, c, v⟩ = Except.error msg ∧
            statusRest e ⟨B, c, v⟩ = Except.error msg) ∨
    (∃ c2 v2, statusRest e ⟨A, c, v⟩ = Except.ok ⟨A, c2, v2⟩ ∧
              statusRest e ⟨B, c, v⟩ = Except.ok ⟨B, c2, v2⟩) := by
  unfold statusRest
  split
  · exact Or.inr ⟨_, _, rfl, rfl⟩
  · rw [computeVar_congr v hfind]
    cases hcv : computeVar B e v with
    | error msg => exact Or.inl ⟨msg, rfl, rfl⟩
    | ok nv =>
        dsimp only
        exact applyUpdate_pair A B c nv

lemma statusStep_erase (panel : List Expert) (k : String) (e : Expert)
    (E : Entries) (c : Status) (v : Option Status)
    (hside : e.kind = k → e.side_expert = true)
    (hnp : ∀ p ∈ E, p.1 = k → docPlusDoc p.2 = false) :
    (∃ msg, statusStep panel e ⟨E, c, v⟩ = Except.error msg ∧
            statusStep panel e ⟨eraseKey k E, c, v⟩ = Except.error msg) ∨
    (∃ E2 c2 v2, statusStep panel e ⟨E, c, v⟩ = Except.ok ⟨E2, c2, v2⟩ ∧
            statusStep panel e ⟨eraseKey k E, c, v⟩ = Except.ok ⟨eraseKey k E2, c2, v2⟩ ∧
            ∀ p ∈ E2, p ∈ E) := by
  by_cases hk : e.kind = k
  · have hsd := hside hk
    have hW : statusStep panel e ⟨E, c, v⟩ = Except.ok ⟨E, c, v⟩ := by
      cases hf : summFind E e.kind with
      | none =>
          rw [@statusStep_find_none panel e ⟨E, c, v⟩ hf]
          exact statusRest_side hsd
      | some doc =>
          have hdp : docPlusDoc doc = false := by
            obtain ⟨p, hp, hp1, hp2⟩ := summFind_some_mem hf
            rw [← hp2]
            exact hnp p hp (hp1.symm ▸ hk ▸ rfl)
          rw [@statusStep_find_not_plus panel e ⟨E, c, v⟩ doc hf hdp]
          exact statusRest_side hsd
    have hW2 : statusStep panel e ⟨eraseKey k E, c, v⟩ = Except.ok ⟨eraseKey k E, c, v⟩ := by
      have hf2 : summFind (eraseKey k E) e.kind = none := by
        rw [hk]
        exact summFind_eraseKey_self k E
      rw [@statusStep_find_none panel e ⟨eraseKey k E, c, v⟩ hf2]
      exact statusRest_side hsd
    exact Or.inr ⟨E, c, v, hW, hW2, fun p hp => hp⟩
  · have hfind : summFind (eraseKey k E) e.kind = summFind E e.kind :=
      summFind_eraseKey_ne hk E
    cases hf : summFind E e.kind with
    | none =>
        rw [@statusStep_find_none panel e ⟨E, c, v⟩ hf,
          @statusStep_find_none panel e ⟨eraseKey k E, c, v⟩ (hfind.trans hf)]
        rcases statusRest_pair e E (eraseKey k E) c v (hf.trans (hfind.trans hf).symm) with
          ⟨msg, h1, h2⟩ | ⟨c2, v2, h1, h2⟩
        · exact Or.inl ⟨msg, h1, h2⟩
        · exact Or.inr ⟨E, c2, v2, h1, h2, fun p hp => hp⟩
    | some doc =>
        have hcase : docPlusDoc doc = true ∨ docPlusDoc doc = false := by
          cases docPlusDoc doc
          · exact Or.inr rfl
          · exact Or.inl rfl
        rcases hcase with hdp | hdp
        · -- the '+' short-circuit fires in both runs
          obtain ⟨ss, hps, hsym⟩ : ∃ ss, doc.selfStatus = some ss ∧ ss.symbol = "+" := by
            unfold docPlusDoc at hdp
            cases hps : doc.selfStatus with
            | none => rw [hps] at hdp; simp at hdp
            | some ss =>
                rw [hps] at hdp
                dsimp only at hdp
                exact ⟨ss, rfl, beq_iff_eq.mp hdp⟩
          rw [@statusStep_find_plus panel e ⟨E, c, v⟩ doc ss hf hps hsym,
            @statusStep_find_plus panel e ⟨eraseKey k E, c, v⟩ doc ss (hfind.trans hf) hps hsym]
          have hpa : popAll panel (eraseKey k E) = eraseKey k (popAll panel E) :=
            popAll_eraseKey panel k E
          rw [show (⟨popAll panel (eraseKey k E), c, some ss⟩ : AggState) =
              ⟨eraseKey k (popAll panel E), c, some ss⟩ from by rw [hpa]]
          rcases applyUpdate_pair (popAll panel E) (eraseKey k (popAll panel E)) c (some ss) with
            ⟨msg, h1, h2⟩ | ⟨c2, v2, h1, h2⟩
          · exact Or.inl ⟨msg, h1, h2⟩
          · exact Or.inr ⟨popAll panel E, c2, v2, h1, h2,
              fun p hp => (List.mem_filter.mp hp).1⟩
        · rw [@statusStep_find_not_plus panel e ⟨E, c, v⟩ doc hf hdp,
            @statusStep_find_not_plus panel e ⟨eraseKey k E, c, v⟩ doc (hfind.trans hf) hdp]
          rcases statusRest_pair e E (eraseKey k E) c v (hf.trans (hfind.trans hf).symm) with
            ⟨msg, h1, h2⟩ | ⟨c2, v2, h1, h2⟩
          · exact Or.inl ⟨msg, h1, h2⟩
          · exact Or.inr ⟨E, c2, v2, h1, h2, fun p hp => hp⟩

lemma runAgg_erase (panel : List Expert) (k : String) :
    ∀ (l : List Expert) (E : Entries) (c : Status) (v : Option Status),
      (∀ e ∈ l, e.kind = k → e.side_expert = true) →
      (∀ p ∈ E, p.1 = k → docPlusDoc p.2 = false) →
      (∃ msg, runAgg panel l ⟨E, c, v⟩ = Except.error msg ∧
              runAgg panel l ⟨eraseKey k E, c, v⟩ = Except.error msg) ∨
      (∃ E2 c2 v2, runAgg panel l ⟨E, c, v⟩ = Except.ok ⟨E2, c2, v2⟩ ∧
              runAgg panel l ⟨eraseKey k E, c, v⟩ = Except.ok ⟨eraseKey k E2, c2, v2⟩) := by
  intro l
  induction l with
  | nil =>
      intro E c v hside hnp
      exact Or.inr ⟨E, c, v, rfl, rfl⟩
  | cons e rest ih =>
      intro E c v hside hnp
      rcases statusStep_erase panel k e E c v (hside e (by simp)) hnp with
        ⟨msg, h1, h2⟩ | ⟨E2, c2, v2, h1, h2, hsub⟩
      · unfold runAgg
        rw [h1, h2]
        exact Or.inl ⟨msg, rfl, rfl⟩
      · unfold runAgg
        rw [h1, h2]
        dsimp only
        exact ih E2 c2 v2 (fun e2 he2 => hside e2 (by simp [he2]))
          (fun p hp hp1 => hnp p (hsub p hp) hp1)

/-- C7 (amended): removing a side comparator's result document from the
category summary never changes the final `comparisonStatus` (nor whether and
how the aggregation raises), provided the document does not carry the
top-level status symbol `'+'` (the `'+'` short-circuit is tested before the
`side_expert` test and applies to side comparators too) and the summary does
not become empty by the removal (an empty summary takes the
no-reference path instead). -/
theorem C7_side_removal_invariant (panel : List Expert) (lead : Option String)
    (s : CompSummary) (k : String)
    (hside : ∀ e ∈ panel, e.kind = k → e.side_expert = true)
    (hnp : ∀ p ∈ s.entries, p.1 = k → docPlusDoc p.2 = false)
    (hne : (eraseKey k s.entries).isEmpty = false ∨ s.refTask.isSome = true) :
    (board_status panel lead s).map FinalSummary.comparisonStatus =
      (board_status panel lead { refTask := s.refTask, entries := eraseKey k s.entries }).map
        FinalSummary.comparisonStatus := by
  have hne1 : ¬((s.entries.isEmpty && s.refTask.isNone) = true) := by
    rcases hne with h | h
    · intro hc
      have h2 := (Bool.and_eq_true _ _).mp hc
      have h3 : s.entries = [] := List.isEmpty_iff.mp h2.1
      rw [h3] at h
      simp [eraseKey] at h
    · intro hc
      have h2 := (Bool.and_eq_true _ _).mp hc
      rw [Option.isNone_iff_eq_none] at h2
      rw [h2.2] at h
      simp at h
  have hne2 : ¬(((eraseKey k s.entries).isEmpty && s.refTask.isNone) = true) := by
    rcases hne with h | h
    · intro hc
      have h2 := (Bool.and_eq_true _ _).mp hc
      rw [h2.1] at h
      simp at h
    · intro hc
      have h2 := (Bool.and_eq_true _ _).mp hc
      rw [Option.isNone_iff_eq_none] at h2
      rw [h2.2] at h
      simp at h
  unfold board_status
  rw [if_neg hne1, if_neg hne2]
  rcases runAgg_erase panel k panel s.entries noExpertStatus none hside hnp with
    ⟨msg, h1, h2⟩ | ⟨E2, c2, v2, h1, h2⟩
  · rw [h1, h2]
  · rw [h1, h2]
    rfl

/-- C7 witness: a two-expert panel; the side expert's document does not carry
`'+'`; removing it leaves the verdict unchanged. -/
theorem C7_side_removal_invariant_witness :
    (board_status [⟨"a", true⟩, ⟨"b", false⟩] none
        { entries := [("a", okDocM), ("b", okDocM)] }).map FinalSummary.comparisonStatus =
      (board_status [⟨"a", true⟩, ⟨"b", false⟩] none
        { refTask := none, entries := eraseKey "a" [("a", okDocM), ("b", okDocM)] }).map
          FinalSummary.comparisonStatus :=
  C7_side_removal_invariant [⟨"a", true⟩, ⟨"b", false⟩] none
    { entries := [("a", okDocM), ("b", okDocM)] } "a"
    (by decide) (by decide) (Or.inl (by decide))

/-- C7 counterexample: (1) a side expert whose document carries `'+'` does
determine the verdict (removing it changes the status from `'+'` to `'OK'`);
(2) removing the only entry also changes the outcome (aggregated `'-'`
versus no-reference `'0'`). -/
theorem C7_counterexample :
    statusSymbolOf (board_status [⟨"a", true⟩, ⟨"b", false⟩] none
        { entries := [("a", plusDoc), ("b", okDocM)] }) ≠
      statusSymbolOf (board_status [⟨"a", true⟩, ⟨"b", false⟩] none
        { entries := eraseKey "a" [("a", plusDoc), ("b", okDocM)] }) ∧
    statusSymbolOf (board_status [⟨"a", true⟩] none { entries := [("a", okDocM)] }) ≠
      statusSymbolOf (board_status [⟨"a", true⟩] none
        { entries := eraseKey "a" [("a", okDocM)] }) := by
  constructor
  · decide
  · decide
